import Mathlib

/-!
Verification of the pagebinder crawler core (`WebsiteCrawler.py`).

The development shallowly embeds the crawl frontier, the crawl loop, the
hierarchy builder and the index-offset computation of `WebsitePDFCrawler`.
Python strings are `String` (lists of characters); Python sets of URLs are
lists with membership tests; the external browser and PDF capabilities
(selenium, PyPDF2) are oracle parameters.
-/

namespace Pagebinder

/-! ## Python string primitives -/

/-- Python `s.rstrip(c)`: remove every trailing occurrence of `c`. -/
def pyRstrip (ch : Char) (l : List Char) : List Char :=
  (l.reverse.dropWhile (fun c => c == ch)).reverse

/-- Python `s.lstrip(c)`: remove every leading occurrence of `c`. -/
def pyLstrip (ch : Char) (l : List Char) : List Char :=
  l.dropWhile (fun c => c == ch)

/-- Does `pat` match at the beginning of `l` (Python `s.startswith(pat)`)? -/
def begMatches : List Char → List Char → Bool
  | [], _ => true
  | _ :: _, [] => false
  | p :: ps, c :: cs => p == c && begMatches ps cs

/-- Python `pat in s`: substring containment. -/
def hasSub (pat : List Char) : List Char → Bool
  | [] => begMatches pat []
  | c :: cs => begMatches pat (c :: cs) || hasSub pat cs

/-- Python `s.split(sep)` for a single-character separator: the result is
never empty and splitting the empty string yields one empty field. -/
def pySplit (sep : Char) : List Char → List (List Char)
  | [] => [[]]
  | c :: cs =>
    if c == sep then [] :: pySplit sep cs
    else
      match pySplit sep cs with
      | [] => [[c]]
      | h :: t => (c :: h) :: t

/-- Python `s.lower()` (per character). -/
def strLower (l : List Char) : List Char := l.map Char.toLower

/-- Python `s.split('#')[0]`: everything before the first `#`. -/
def takeBeforeHash (l : List Char) : List Char :=
  l.takeWhile (fun c => c != '#')

/-! ## URL parsing (models `urllib.parse` on the URL shapes the crawler sees) -/

/-- The characters after the first `://` scheme separator, if any. -/
def afterSchemeSep : List Char → Option (List Char)
  | [] => none
  | ':' :: '/' :: '/' :: rest => some rest
  | _ :: cs => afterSchemeSep cs

/-- A character that terminates the authority (netloc) component. -/
def netlocEnd (c : Char) : Bool := c == '/' || c == '?' || c == '#'

/-- A character that terminates the path component. -/
def pathEnd (c : Char) : Bool := c == '?' || c == '#'

/-- `urlparse(url).netloc` for URLs carrying an explicit `://` authority
(the only URLs the crawler evaluates it on). -/
def urlNetloc (url : String) : String :=
  match afterSchemeSep url.data with
  | some rest => ⟨rest.takeWhile (fun c => !netlocEnd c)⟩
  | none => ""

/-- `urlparse(url).path` for URLs carrying an explicit `://` authority;
for authority-less strings the whole query/fragment-free text is the path. -/
def urlPath (url : String) : String :=
  match afterSchemeSep url.data with
  | some rest => ⟨(rest.dropWhile (fun c => !netlocEnd c)).takeWhile (fun c => !pathEnd c)⟩
  | none => ⟨url.data.takeWhile (fun c => !pathEnd c)⟩

/-- Models `urllib.parse.urljoin` on the reference shapes this crawler
produces: an absolute URL is returned unchanged; scheme-relative,
root-relative and bare relative references are resolved against `base`.
(The `..`/`.` dot-segment normalization of the full RFC algorithm is not
modelled; the theorems below never depend on it.) -/
def urljoin (base url : String) : String :=
  if hasSub ("://").data url.data then url
  else if begMatches ("//").data url.data then
    ⟨(base.data.takeWhile (fun c => c != ':')) ++ ':' :: url.data⟩
  else if begMatches ("/").data url.data then
    match afterSchemeSep base.data with
    | some rest =>
      ⟨base.data.take (base.data.length - rest.length) ++
        rest.takeWhile (fun c => !netlocEnd c) ++ url.data⟩
    | none => url
  else
    ⟨(base.data.reverse.dropWhile (fun c => c != '/')).reverse ++ url.data⟩

/-- The URL normalization applied to every discovered link
(`full_url.split('#')[0].rstrip('/')`, WebsiteCrawler.py line 146). -/
def normalizeUrl (s : String) : String :=
  ⟨pyRstrip '/' (takeBeforeHash s.data)⟩

/-! ## Crawler configuration and URL classifier -/

/-- The configuration fields of `WebsitePDFCrawler.__init__` that the crawl
frontier reads. Include/exclude regex matching is external (`re.search`),
so each pattern is embedded as the predicate it denotes. -/
structure Config where
  base_url : String
  domain : String
  include_patterns : List (String → Bool)
  exclude_patterns : List (String → Bool)
  max_depth : Option Int
  max_pages : Nat

/-- `WebsitePDFCrawler.__init__`: `base_url` is the argument with trailing
slashes stripped, `domain` is the netloc of the raw argument. -/
def mkConfig (raw_base_url : String) (inc exc : List (String → Bool))
    (md : Option Int) (mp : Nat) : Config :=
  { base_url := ⟨pyRstrip '/' raw_base_url.data⟩
    domain := urlNetloc raw_base_url
    include_patterns := inc
    exclude_patterns := exc
    max_depth := md
    max_pages := mp }

/-- `is_same_domain` (line 92): exact netloc equality. -/
def is_same_domain (cfg : Config) (url : String) : Bool :=
  urlNetloc url == cfg.domain

/-- `_get_url_depth` (line 96): difference of `/`-segment counts of the
trailing-slash-stripped paths. -/
def get_url_depth (cfg : Config) (url : String) : Int :=
  ((pySplit '/' (pyRstrip '/' (urlPath url).data)).length : Int) -
    ((pySplit '/' (pyRstrip '/' (urlPath cfg.base_url).data)).length : Int)

/-- `_matches_patterns` (line 102). -/
def matches_patterns (cfg : Config) (url : String) : Bool :=
  (cfg.include_patterns.isEmpty || cfg.include_patterns.any (fun p => p url)) &&
    !(cfg.exclude_patterns.any (fun p => p url))

/-- The fixed denylist of `_should_skip_url` (line 164). -/
def skip_patterns : List String :=
  [".pdf", ".doc", ".zip", ".exe", ".jpg", ".png", ".gif",
   "mailto:", "tel:", "javascript:",
   "/search?", "/login", "/logout", "/register"]

/-- `_should_skip_url` (line 162): case-insensitive substring match against
the denylist. -/
def should_skip_url (url : String) : Bool :=
  skip_patterns.any (fun p => hasSub p.data (strLower url.data))

/-- The depth bound of the filter chain (line 154):
`max_depth is None or depth <= max_depth`. -/
def depth_ok (cfg : Config) (url : String) : Bool :=
  match cfg.max_depth with
  | none => true
  | some d => decide (get_url_depth cfg url ≤ d)

/-! ## Link discovery (`get_page_links`, lines 132-160) -/

/-- The conjunction of conditions on line 148-154 deciding whether a
normalized candidate joins the discovered batch `links`. -/
def link_ok (cfg : Config) (visited links : List String) (full_url : String) : Bool :=
  (begMatches ("http://").data full_url.data ||
     begMatches ("https://").data full_url.data) &&
  is_same_domain cfg full_url &&
  !(visited.contains full_url) &&
  !(links.contains full_url) &&
  !(should_skip_url full_url) &&
  matches_patterns cfg full_url &&
  depth_ok cfg full_url

/-- One iteration of the anchor loop of `get_page_links`: skip falsy hrefs,
join and normalize (`full_url`), then append when `link_ok` passes. -/
def get_page_links_step (cfg : Config) (visited : List String)
    (current_url : String) (links : List String) (href : String) : List String :=
  if href == "" then links
  else if link_ok cfg visited links (normalizeUrl (urljoin current_url href)) then
    links ++ [normalizeUrl (urljoin current_url href)]
  else links

/-- `get_page_links(current_url)`: the anchors' raw `href` attributes come
from the rendered DOM (external), passed here as `hrefs`. -/
def get_page_links (cfg : Config) (visited : List String)
    (current_url : String) (hrefs : List String) : List String :=
  hrefs.foldl (get_page_links_step cfg visited current_url) []

/-- The frontier's absorb operation as the crawl loop performs it
(`self.urls_to_visit.extend(new_links)`, line 335): append the filtered
batch to pending. -/
def absorb (cfg : Config) (visited pending : List String)
    (current_url : String) (hrefs : List String) : List String :=
  pending ++ get_page_links cfg visited current_url hrefs

/-! ## Crawl loop state machine (`crawl_website`, lines 278-344) -/

/-- One entry of `self.page_info` (line 324). `page_count` is 0 until index
generation runs. -/
structure PageInfo where
  title : String
  url : String
  pdf_path : String
  page_count : Nat
deriving DecidableEq

/-- The mutable crawl state: `visited_urls` (a set, embedded as the list of
its elements in insertion order), `urls_to_visit` (FIFO), `page_info`. -/
structure CrawlState where
  visited : List String
  pending : List String
  page_info : List PageInfo
deriving DecidableEq

/-- The external browser capability: whether `save_page_as_pdf` succeeds on
a URL, the page title, and the raw anchor hrefs of the rendered page. -/
structure Env where
  renderOk : String → Bool
  titleOf : String → String
  hrefsOf : String → List String

/-- Zero-pad a number to three digits (the `f-string` format `{n:03d}`). -/
def pad3 (n : Nat) : String :=
  if n < 10 then "00" ++ Nat.repr n
  else if n < 100 then "0" ++ Nat.repr n
  else Nat.repr n

/-- The per-page PDF filename (line 315-318), sans the temp-dir prefix. -/
def pdf_filename (n : Nat) : String :=
  "page_" ++ pad3 n ++ ".pdf"

/-- One iteration of the `while` loop of `crawl_website` (lines 306-339).
`none` means the loop guard fails (pending empty or budget reached).
The second component of the result is `some u` exactly when
`save_page_as_pdf` was invoked on `u` in this iteration (a render attempt,
successful or not); the already-visited `continue` branch renders nothing. -/
def crawl_step (cfg : Config) (env : Env) (s : CrawlState) :
    Option (CrawlState × Option String) :=
  match s.pending with
  | [] => none
  | current_url :: rest =>
    if s.visited.length < cfg.max_pages then
      if s.visited.contains current_url then
        some ({ s with pending := rest }, none)
      else if env.renderOk current_url then
        some ({ visited := s.visited ++ [current_url]
                pending := rest ++ get_page_links cfg (s.visited ++ [current_url])
                  current_url (env.hrefsOf current_url)
                page_info := s.page_info ++
                  [{ title := env.titleOf current_url
                     url := current_url
                     pdf_path := pdf_filename (s.visited ++ [current_url]).length
                     page_count := 0 }] }, some current_url)
      else
        some ({ s with visited := s.visited ++ [current_url], pending := rest },
          some current_url)
    else none

/-- The one-step relation of the crawl loop. -/
def crawl_step_rel (cfg : Config) (env : Env) (s s' : CrawlState) : Prop :=
  ∃ e, crawl_step cfg env s = some (s', e)

/-- Reachability along crawl-loop iterations. -/
def crawl_reaches (cfg : Config) (env : Env) : CrawlState → CrawlState → Prop :=
  Relation.ReflTransGen (crawl_step_rel cfg env)

/-- Run up to `fuel` iterations of the crawl loop, stopping when the guard
fails. -/
def crawl_run (cfg : Config) (env : Env) : Nat → CrawlState → CrawlState
  | 0, s => s
  | fuel + 1, s =>
    match crawl_step cfg env s with
    | none => s
    | some (s', _) => crawl_run cfg env fuel s'

/-- The seeding step at the top of `crawl_website` (lines 298-300):
`if not self.urls_to_visit: self.urls_to_visit = [self.base_url]`. -/
def crawl_seed (base_url : String) (s : CrawlState) : CrawlState :=
  if s.pending.isEmpty then { s with pending := [base_url] } else s

/-! ## Hierarchy builder (`_build_hierarchical_structure`, lines 346-378) -/

/-- The tree node `{'_pages': [...], '_children': {...}}`; the children
dict is embedded as an association list in insertion order. -/
inductive HTree where
  | node (pages : List PageInfo) (children : List (String × HTree))

/-- The `_pages` field. -/
def HTree.pages : HTree → List PageInfo
  | node p _ => p

/-- The `_children` field. -/
def HTree.children : HTree → List (String × HTree)
  | node _ c => c

/-- Dict lookup on the children association list. -/
def lookupChild (cs : List (String × HTree)) (k : String) : Option HTree :=
  match cs with
  | [] => none
  | (k', t) :: rest => if k' == k then some t else lookupChild rest k

/-- Dict assignment: replace the binding of `k` in place, or append a new
binding at the end (Python dict insertion order). -/
def setChild (cs : List (String × HTree)) (k : String) (t : HTree) :
    List (String × HTree) :=
  match cs with
  | [] => [(k, t)]
  | (k', t') :: rest => if k' == k then (k, t) :: rest else (k', t') :: setChild rest k t

/-- Navigate/create the chain of children named by `segs` (creating empty
nodes as Python's `if part not in current['_children']` does) and append
`info` to the terminal node's pages. -/
def insertInfo : HTree → List String → PageInfo → HTree
  | HTree.node ps cs, [], info => HTree.node (ps ++ [info]) cs
  | HTree.node ps cs, seg :: rest, info =>
    let child := (lookupChild cs seg).getD (HTree.node [] [])
    HTree.node ps (setChild cs seg (insertInfo child rest info))

/-- The relative path of a record (lines 352-359): the URL path, the base
path stripped off when it is a prefix, left-stripped of `/`. -/
def relative_path (cfg : Config) (url : String) : String :=
  let base_path := pyRstrip '/' (urlPath cfg.base_url).data
  let url_path := pyRstrip '/' (urlPath url).data
  if begMatches base_path url_path then ⟨pyLstrip '/' (url_path.drop base_path.length)⟩
  else ⟨pyLstrip '/' url_path⟩

/-- `_build_hierarchical_structure`: records with an empty relative path go
to the root's pages; otherwise all path segments but the last name the
chain of children and the record lands on that chain's terminal node. -/
def build_hierarchical_structure (cfg : Config) (infos : List PageInfo) : HTree :=
  infos.foldl
    (fun tree info =>
      let rel := relative_path cfg info.url
      if rel == "" then
        match tree with
        | HTree.node ps cs => HTree.node (ps ++ [info]) cs
      else
        let parts := (pySplit '/' rel.data).map (fun l => (⟨l⟩ : String))
        insertInfo tree parts.dropLast info)
    (HTree.node [] [])

/-! ## Page counting and index offsets
(`get_pdf_page_count` lines 216-224, `generate_hierarchical_index_pdf`
lines 395-403 and 471-474) -/

/-- `get_pdf_page_count`: the external PyPDF2 read (`pdfRead`) yields the
parsed page count or fails; on failure the function returns 1 instead of
raising. -/
def get_pdf_page_count (pdfRead : String → Option Nat) (pdf_path : String) : Nat :=
  match pdfRead pdf_path with
  | some n => n
  | none => 1

/-- The pass-1 loop of lines 400-403 with the running `temp_page`
accumulator. -/
def tempStartsFrom (t : Nat) : List Nat → List Nat
  | [] => []
  | c :: cs => t :: tempStartsFrom (t + c) cs

/-- Pass 1: `temp_start_page` for each record, in crawl order, starting the
accumulator at 1. -/
def temp_start_pages (counts : List Nat) : List Nat :=
  tempStartsFrom 1 counts

/-- Pass 2 (lines 471-474): shift every tentative start page by the index
document's own page count. -/
def final_start_pages (counts : List Nat) (index_page_count : Nat) : List Nat :=
  (temp_start_pages counts).map (fun t => t + index_page_count)

/-! ## Spec-claimed shapes (refinement targets, following the spec's words) -/

/-- The root shape the §8 grouping example claims, following the spec's
words: root pages [/docs], a child "a" holding /docs/a, and a child
"guide" holding /docs/guide/b under a further child "b". -/
def spec_claimed_tree_check (t : HTree) : Bool :=
  (t.pages.map (fun i => i.url) == ["https://x.com/docs"]) &&
  (match lookupChild t.children ("a") with
   | some ta => ta.pages.map (fun i => i.url) == ["https://x.com/docs/a"]
   | none => false) &&
  (match lookupChild t.children ("guide") with
   | some tg =>
     tg.pages.isEmpty &&
     (match lookupChild tg.children ("b") with
      | some tb => tb.pages.map (fun i => i.url) == ["https://x.com/docs/guide/b"]
      | none => false)
   | none => false)

/-- The seeding contract the spec claims, at a given state: pending
becomes [base] only when pending and visited are both empty; no-op in
every other state. -/
def seed_claim_at (base : String) (s : CrawlState) : Prop :=
  crawl_seed base s =
    (if s.pending = [] ∧ s.visited = [] then { s with pending := [base] } else s)

/-! ## Concrete fixtures for counterexamples and witnesses -/

/-- A crawl of `https://x.com` with default flags. -/
def cfgX : Config := mkConfig ("https://x.com") [] [] none 10

/-- A site where pages `/a` and `/b` both link to `/c`. -/
def envX : Env :=
  { renderOk := fun _ => true
    titleOf := fun _ => "T"
    hrefsOf := fun u =>
      if u == "https://x.com/a" then ["https://x.com/c"]
      else if u == "https://x.com/b" then ["https://x.com/c"]
      else [] }

/-- Initial frontier holding `/a` and `/b`. -/
def sX : CrawlState :=
  { visited := [], pending := ["https://x.com/a", "https://x.com/b"], page_info := [] }

/-- A configuration rooted below the domain, for the hierarchy example. -/
def cfgDocs : Config := mkConfig ("https://x.com/docs") [] [] none 50

/-- The three crawled records of the hierarchy-grouping example of §8. -/
def infosDocs : List PageInfo :=
  [ { title := "Docs", url := "https://x.com/docs", pdf_path := "p1", page_count := 0 },
    { title := "A", url := "https://x.com/docs/a", pdf_path := "p2", page_count := 0 },
    { title := "B", url := "https://x.com/docs/guide/b", pdf_path := "p3", page_count := 0 } ]

/-- An environment whose render capability always fails. -/
def envFail : Env :=
  { renderOk := fun _ => false, titleOf := fun _ => "T", hrefsOf := fun _ => [] }

/-- A one-URL frontier for the render-failure witness. -/
def sF : CrawlState :=
  { visited := [], pending := ["https://x.com/a"], page_info := [] }

/-- A frontier whose pending head is already visited. -/
def sS : CrawlState :=
  { visited := ["https://x.com/a"], pending := ["https://x.com/a"], page_info := [] }

/-! ## Helper lemmas -/

theorem mem_iff_contains {l : List String} {a : String} :
    a ∈ l ↔ l.contains a = true := by
  constructor
  · exact fun h => List.elem_eq_true_of_mem h
  · exact fun h => List.mem_of_elem_eq_true h

theorem tempStartsFrom_eq (counts : List Nat) : ∀ t : Nat,
    tempStartsFrom t counts =
      (List.range counts.length).map (fun i => t + (counts.take i).sum) := by
  induction counts with
  | nil => intro t; rfl
  | cons c cs ih =>
    intro t
    rw [List.length_cons, List.range_succ_eq_map, List.map_cons, List.map_map]
    rw [show tempStartsFrom t (c :: cs) = t :: tempStartsFrom (t + c) cs from rfl, ih (t + c)]
    congr 1
    simp
    intro a ha
    omega

theorem takeBeforeHash_append_hash (l f : List Char) :
    takeBeforeHash (l ++ '#' :: f) = takeBeforeHash l := by
  induction l with
  | nil => simp [takeBeforeHash, List.takeWhile_cons]
  | cons c cs ih =>
    simp only [takeBeforeHash, List.cons_append, List.takeWhile_cons] at ih ⊢
    cases hc : (c != '#') <;> simp [ih]

theorem pyRstrip_append_slash (l : List Char) :
    pyRstrip '/' (l ++ ['/']) = pyRstrip '/' l := by
  simp [pyRstrip, List.reverse_append, List.dropWhile_cons]

theorem link_ok_fresh {cfg : Config} {visited links : List String} {u : String}
    (h : link_ok cfg visited links u = true) : u ∉ links ∧ u ∉ visited := by
  simp only [link_ok, Bool.and_eq_true, Bool.not_eq_true'] at h
  refine ⟨fun hm => ?_, fun hm => ?_⟩
  · rw [mem_iff_contains] at hm
    rw [hm] at h
    simp at h
  · rw [mem_iff_contains] at hm
    rw [hm] at h
    simp at h

theorem get_page_links_foldl_nodup (cfg : Config) (visited : List String)
    (cur : String) (hrefs : List String) : ∀ acc : List String, acc.Nodup →
    (hrefs.foldl (get_page_links_step cfg visited cur) acc).Nodup := by
  induction hrefs with
  | nil => exact fun acc h => h
  | cons href hs ih =>
    intro acc h
    rw [List.foldl_cons]
    apply ih
    unfold get_page_links_step
    split
    · exact h
    · split
      · rename_i hok
        have hnm := (link_ok_fresh hok).1
        simp [List.nodup_append, h, hnm]
      · exact h

theorem get_page_links_foldl_fresh (cfg : Config) (visited : List String)
    (cur : String) (hrefs : List String) : ∀ acc : List String,
    (∀ u ∈ acc, u ∉ visited) →
    ∀ u ∈ hrefs.foldl (get_page_links_step cfg visited cur) acc, u ∉ visited := by
  induction hrefs with
  | nil => exact fun acc h => h
  | cons href hs ih =>
    intro acc h
    rw [List.foldl_cons]
    apply ih
    unfold get_page_links_step
    split
    · exact h
    · split
      · rename_i hok
        intro u hu
        rcases List.mem_append.mp hu with hu | hu
        · exact h u hu
        · rw [List.mem_singleton] at hu
          subst hu
          exact (link_ok_fresh hok).2
      · exact h

theorem get_page_links_nodup (cfg : Config) (visited : List String)
    (cur : String) (hrefs : List String) :
    (get_page_links cfg visited cur hrefs).Nodup :=
  get_page_links_foldl_nodup cfg visited cur hrefs [] List.nodup_nil

theorem get_page_links_fresh (cfg : Config) (visited : List String)
    (cur : String) (hrefs : List String) :
    ∀ u ∈ get_page_links cfg visited cur hrefs, u ∉ visited :=
  get_page_links_foldl_fresh cfg visited cur hrefs [] (by intro u hu; cases hu)

theorem crawl_step_inv {cfg : Config} {env : Env} {s s' : CrawlState}
    {e : Option String} (h : crawl_step cfg env s = some (s', e)) :
    ∃ u rest, s.pending = u :: rest ∧ s.visited.length < cfg.max_pages ∧
      ((u ∈ s.visited ∧ e = none ∧ s' = { s with pending := rest }) ∨
       (u ∉ s.visited ∧ e = some u ∧ s'.visited = s.visited ++ [u])) := by
  unfold crawl_step at h
  split at h
  · exact absurd h (by simp)
  · rename_i u rest hpend
    split at h
    · rename_i hb
      split at h
      · rename_i hv
        injection h with h1
        injection h1 with hA hB
        exact ⟨u, rest, hpend, hb, Or.inl ⟨mem_iff_contains.mpr hv, hB.symm, hA.symm⟩⟩
      · rename_i hv
        have hnv : u ∉ s.visited := fun hm => hv (mem_iff_contains.mp hm)
        split at h
        · injection h with h1
          injection h1 with hA hB
          exact ⟨u, rest, hpend, hb, Or.inr ⟨hnv, hB.symm, by rw [← hA]⟩⟩
        · injection h with h1
          injection h1 with hA hB
          exact ⟨u, rest, hpend, hb, Or.inr ⟨hnv, hB.symm, by rw [← hA]⟩⟩
    · exact absurd h (by simp)

theorem crawl_step_visited_mono {cfg : Config} {env : Env} {s s' : CrawlState}
    {e : Option String} (h : crawl_step cfg env s = some (s', e)) :
    s.visited ⊆ s'.visited ∧ s'.visited.length ≤ s.visited.length + 1 ∧
      s.visited.length < cfg.max_pages := by
  obtain ⟨u, rest, hp, hb, hcase⟩ := crawl_step_inv h
  rcases hcase with ⟨hv, he, rfl⟩ | ⟨hv, he, hvis⟩
  · exact ⟨fun x hx => hx, by simp, hb⟩
  · refine ⟨fun x hx => ?_, ?_, hb⟩
    · rw [hvis]; exact List.mem_append_left _ hx
    · rw [hvis]; simp

theorem crawl_reaches_visited_mono {cfg : Config} {env : Env} {s s' : CrawlState}
    (h : crawl_reaches cfg env s s') : s.visited ⊆ s'.visited := by
  induction h with
  | refl => exact fun x hx => hx
  | tail h1 h2 ih =>
    obtain ⟨e, hstep⟩ := h2
    exact fun x hx => (crawl_step_visited_mono hstep).1 (ih hx)

theorem crawl_reaches_budget {cfg : Config} {env : Env} {s s' : CrawlState}
    (h : crawl_reaches cfg env s s') (h0 : s.visited.length ≤ cfg.max_pages) :
    s'.visited.length ≤ cfg.max_pages := by
  induction h with
  | refl => exact h0
  | tail h1 h2 ih =>
    obtain ⟨e, hstep⟩ := h2
    have hm := crawl_step_visited_mono hstep
    omega

theorem crawl_step_halt {cfg : Config} {env : Env} {s : CrawlState}
    (h : s.pending = [] ∨ cfg.max_pages ≤ s.visited.length) :
    crawl_step cfg env s = none := by
  unfold crawl_step
  cases hp : s.pending with
  | nil => rfl
  | cons u rest =>
    rcases h with h | h
    · rw [hp] at h; exact absurd h (by simp)
    · dsimp only
      rw [if_neg (show ¬ s.visited.length < cfg.max_pages by omega)]

theorem crawl_step_render_fresh {cfg : Config} {env : Env} {s s' : CrawlState}
    {u : String} (h : crawl_step cfg env s = some (s', some u)) :
    u ∉ s.visited ∧ u ∈ s'.visited := by
  obtain ⟨v, rest, hp, hb, hcase⟩ := crawl_step_inv h
  rcases hcase with ⟨hv, he, hs⟩ | ⟨hv, he, hvis⟩
  · exact absurd he (by simp)
  · injection he with he'
    subst he'
    exact ⟨hv, by rw [hvis]; exact List.mem_append_right _ (List.mem_singleton_self _)⟩

theorem crawl_step_skip {cfg : Config} {env : Env} {s : CrawlState}
    {u : String} {rest : List String} (hp : s.pending = u :: rest)
    (hv : u ∈ s.visited) (hb : s.visited.length < cfg.max_pages) :
    crawl_step cfg env s = some ({ s with pending := rest }, none) := by
  unfold crawl_step
  rw [hp]
  dsimp only
  rw [if_pos hb, if_pos (mem_iff_contains.mp hv)]

theorem crawl_step_render_fail {cfg : Config} {env : Env} {s : CrawlState}
    {u : String} {rest : List String} (hp : s.pending = u :: rest)
    (hv : u ∉ s.visited) (hb : s.visited.length < cfg.max_pages)
    (hr : env.renderOk u = false) :
    crawl_step cfg env s =
      some ({ s with visited := s.visited ++ [u], pending := rest }, some u) := by
  unfold crawl_step
  rw [hp]
  dsimp only
  rw [if_pos hb, if_neg (fun hc => hv (mem_iff_contains.mpr hc)),
    if_neg (show ¬ env.renderOk u = true by rw [hr]; simp)]

theorem data_append3 (u f : String) (c : Char) :
    (u ++ String.mk [c] ++ f).data = u.data ++ c :: f.data := by
  cases u; cases f; simp [String.append]

/-! ## Claims -/

/-- C4: pass 1 assigns `tentativeStart[i] = 1 + Σ pageCount[0..i-1]` in
crawl order, pass 2 shifts every start page by the index document's own
page count `K`, and for content page counts `[3, 1, 4]` with a 2-page
index the final start pages are `[3, 6, 7]`. -/
theorem claim4_index_offsets :
    (∀ counts : List Nat, temp_start_pages counts =
        (List.range counts.length).map (fun i => 1 + (counts.take i).sum)) ∧
    (∀ (counts : List Nat) (k : Nat), final_start_pages counts k =
        (List.range counts.length).map (fun i => 1 + (counts.take i).sum + k)) ∧
    final_start_pages [3, 1, 4] 2 = [3, 6, 7] := by
  refine ⟨fun counts => tempStartsFrom_eq counts 1, fun counts k => ?_, by decide⟩
  rw [final_start_pages, temp_start_pages, tempStartsFrom_eq counts 1, List.map_map]
  rfl

/-- C7: two URLs differing only by a trailing fragment or a trailing slash
normalize to the same string, and a discovered batch never holds two
copies of the same normalized URL, so only one survives absorb into
pending. -/
theorem claim7_url_identity :
    (∀ u f : String, normalizeUrl (u ++ "#" ++ f) = normalizeUrl u) ∧
    (∀ u : String, normalizeUrl (u ++ "/") = normalizeUrl u) ∧
    (∀ (cfg : Config) (visited : List String) (cur : String) (hrefs : List String),
      (get_page_links cfg visited cur hrefs).Nodup) := by
  refine ⟨fun u f => ?_, fun u => ?_, fun cfg visited cur hrefs => get_page_links_nodup cfg visited cur hrefs⟩
  · have hd : (u ++ "#" ++ f).data = u.data ++ '#' :: f.data := data_append3 u f '#'
    simp only [normalizeUrl, hd, takeBeforeHash_append_hash]
  · have hd : (u ++ "/").data = u.data ++ ['/'] := by
      cases u; simp [String.append]
    simp only [normalizeUrl, hd]
    have hh : takeBeforeHash (u.data ++ ['/']) =
        takeBeforeHash u.data ++ (if ('#' : Char) ∈ u.data then [] else ['/']) := by
      simp only [takeBeforeHash]
      induction u.data with
      | nil => simp [List.takeWhile_cons]
      | cons c cs ih =>
        by_cases hc : c = '#'
        · subst hc; simp [List.takeWhile_cons]
        · simp only [List.cons_append, List.takeWhile_cons]
          have : (c != '#') = true := by simp [hc]
          simp only [this, if_true, List.mem_cons, ih]
          have hne : ¬ (('#' : Char) = c) := fun h => hc h.symm
          simp [hne]
    rw [hh]
    by_cases hmem : ('#' : Char) ∈ u.data
    · simp [hmem]
    · simp only [hmem, if_false]
      exact congrArg String.mk (pyRstrip_append_slash _)

/-- C6: along every crawl run the visited count never exceeds maxPages,
and the loop guard fails (the loop terminates) as soon as pending is empty
or the visited count reaches maxPages. -/
theorem claim6_budget_termination (cfg : Config) (env : Env) (s0 s : CrawlState)
    (h0 : s0.visited.length ≤ cfg.max_pages) (h : crawl_reaches cfg env s0 s) :
    s.visited.length ≤ cfg.max_pages ∧
      ((s.pending = [] ∨ s.visited.length = cfg.max_pages) →
        crawl_step cfg env s = none) := by
  refine ⟨crawl_reaches_budget h h0, fun hc => crawl_step_halt ?_⟩
  rcases hc with hc | hc
  · exact Or.inl hc
  · exact Or.inr (le_of_eq hc.symm)

theorem claim6_witness :
    sX.visited.length ≤ cfgX.max_pages ∧
      (sX.visited.length ≤ cfgX.max_pages ∧
        ((sX.pending = [] ∨ sX.visited.length = cfgX.max_pages) →
          crawl_step cfgX envX sX = none)) :=
  ⟨by decide, claim6_budget_termination cfgX envX sX sX (by decide)
    Relation.ReflTransGen.refl⟩

/-- C8: on a render failure the crawl continues without aborting: the URL
is consumed from the visited budget, no PageRecord is appended, no links
are absorbed (pending only loses the popped URL), and that URL is never
rendered again later in the same run. -/
theorem claim8_render_failure (cfg : Config) (env : Env) (s : CrawlState)
    (u : String) (rest : List String) (hp : s.pending = u :: rest)
    (hv : u ∉ s.visited) (hb : s.visited.length < cfg.max_pages)
    (hr : env.renderOk u = false) :
    crawl_step cfg env s =
      some ({ s with visited := s.visited ++ [u], pending := rest }, some u) ∧
    (∀ s' s'' e,
      crawl_reaches cfg env { s with visited := s.visited ++ [u], pending := rest } s' →
      crawl_step cfg env s' = some (s'', e) → e ≠ some u) := by
  refine ⟨crawl_step_render_fail hp hv hb hr, fun s' s'' e hre hst hcontra => ?_⟩
  subst hcontra
  have h1 : u ∈ ({ s with visited := s.visited ++ [u], pending := rest } : CrawlState).visited :=
    List.mem_append_right _ (List.mem_singleton_self _)
  exact (crawl_step_render_fresh hst).1 (crawl_reaches_visited_mono hre h1)

theorem claim8_witness :
    sF.pending = "https://x.com/a" :: [] ∧
    "https://x.com/a" ∉ sF.visited ∧
    sF.visited.length < cfgX.max_pages ∧
    envFail.renderOk ("https://x.com/a") = false ∧
    (crawl_step cfgX envFail sF =
      some ({ sF with visited := sF.visited ++ ["https://x.com/a"], pending := [] },
        some "https://x.com/a") ∧
    (∀ s' s'' e,
      crawl_reaches cfgX envFail
        { sF with visited := sF.visited ++ ["https://x.com/a"], pending := [] } s' →
      crawl_step cfgX envFail s' = some (s'', e) → e ≠ some "https://x.com/a")) :=
  ⟨rfl, by decide, by decide, rfl,
    claim8_render_failure cfgX envFail sF ("https://x.com/a") [] rfl (by decide)
      (by decide) rfl⟩

/-- C9: a URL popped from pending that is already visited is skipped:
no render, no record, no budget consumed; and along any run a render of
the same URL can occur at most once. -/
theorem claim9_render_once (cfg : Config) (env : Env) (s : CrawlState)
    (u : String) (rest : List String) (hp : s.pending = u :: rest)
    (hv : u ∈ s.visited) (hb : s.visited.length < cfg.max_pages) :
    crawl_step cfg env s = some ({ s with pending := rest }, none) ∧
    (∀ s1 s1' s2 s2' v, crawl_reaches cfg env s s1 →
      crawl_step cfg env s1 = some (s1', some v) →
      crawl_reaches cfg env s1' s2 →
      crawl_step cfg env s2 ≠ some (s2', some v)) := by
  refine ⟨crawl_step_skip hp hv hb, fun s1 s1' s2 s2' v h1 hst1 h2 hst2 => ?_⟩
  have hf1 := crawl_step_render_fresh hst1
  have hf2 := crawl_step_render_fresh hst2
  exact hf2.1 (crawl_reaches_visited_mono h2 hf1.2)

theorem claim9_witness :
    sS.pending = "https://x.com/a" :: [] ∧
    "https://x.com/a" ∈ sS.visited ∧
    sS.visited.length < cfgX.max_pages ∧
    (crawl_step cfgX envX sS = some ({ sS with pending := [] }, none) ∧
    (∀ s1 s1' s2 s2' v, crawl_reaches cfgX envX sS s1 →
      crawl_step cfgX envX s1 = some (s1', some v) →
      crawl_reaches cfgX envX s1' s2 →
      crawl_step cfgX envX s2 ≠ some (s2', some v))) :=
  ⟨rfl, by decide, by decide,
    claim9_render_once cfgX envX sS ("https://x.com/a") [] rfl (by decide) (by decide)⟩

/-- C1 counterexample: after three crawl-loop iterations from a pending
queue [/a, /b] on a site where /a and /b both link to /c, the URL /c is in
the visited set and still in pending, so the claimed invariant
visited ∩ pending = ∅ fails: absorb never filters against pending, and
duplicates across batches survive until popped. -/
theorem claim1_counterexample :
    ("https://x.com/c") ∈ (crawl_run cfgX envX 3 sX).visited ∧
    ("https://x.com/c") ∈ (crawl_run cfgX envX 3 sX).pending := by
  decide

/-- C1 amended: a URL is appended to pending by absorb only if it is not
in visited and not already among the same batch's survivors; pending is
not consulted, so the disjointness of visited and pending can fail once a
duplicated entry's first copy is visited. -/
theorem claim1_absorb_filter (cfg : Config) (visited : List String)
    (cur : String) (hrefs : List String) :
    (∀ u ∈ get_page_links cfg visited cur hrefs, u ∉ visited) ∧
    (get_page_links cfg visited cur hrefs).Nodup :=
  ⟨get_page_links_fresh cfg visited cur hrefs,
    get_page_links_nodup cfg visited cur hrefs⟩

theorem claim1_witness :
    ("https://x.com/c") ∈
      get_page_links cfgX ["https://x.com/a"] ("https://x.com/a") ["https://x.com/c"] ∧
    ("https://x.com/c") ∉ ["https://x.com/a"] :=
  ⟨by decide,
    (claim1_absorb_filter cfgX ["https://x.com/a"] ("https://x.com/a")
      ["https://x.com/c"]).1 _ (by decide)⟩

/-- C2 counterexample: on the §8 example input the built tree does not
have the claimed shape (the code attaches each record at the node of its
path minus the last segment, so /docs/a lands in the root's pages and
/docs/guide/b in guide's pages, with no child "a" and no grandchild "b"). -/
theorem claim2_counterexample :
    spec_claimed_tree_check (build_hierarchical_structure cfgDocs infosDocs) = false := by
  decide

/-- C2 amended: for base https://x.com/docs and pages /docs, /docs/a,
/docs/guide/b the builder produces root pages [/docs, /docs/a] and a
single child "guide" whose pages are [/docs/guide/b] with no children:
a record is appended at the node addressed by all its segments but the
last. -/
theorem claim2_hierarchy :
    ((build_hierarchical_structure cfgDocs infosDocs).pages.map (fun i => i.url) =
      ["https://x.com/docs", "https://x.com/docs/a"]) ∧
    ((build_hierarchical_structure cfgDocs infosDocs).children.map Prod.fst = ["guide"]) ∧
    ((lookupChild (build_hierarchical_structure cfgDocs infosDocs).children ("guide")).map
        (fun n => n.pages.map (fun i => i.url)) = some ["https://x.com/docs/guide/b"]) ∧
    ((lookupChild (build_hierarchical_structure cfgDocs infosDocs).children ("guide")).map
        (fun n => n.children.length) = some 0) := by
  exact ⟨by decide, by decide, by decide, by decide⟩

/-- C3 counterexample: absorbing the same discovered set twice from an
empty frontier appends the surviving link twice, so the second application
does change pending — absorb is not idempotent. -/
theorem claim3_counterexample :
    absorb cfgX []
        (absorb cfgX [] [] ("https://x.com/a") ["https://x.com/c"])
        ("https://x.com/a") ["https://x.com/c"] ≠
      absorb cfgX [] [] ("https://x.com/a") ["https://x.com/c"] := by
  decide

/-- C3 amended: the link filter consults only visited and the current
batch, never pending, so a second absorb with the same discovered hrefs
appends the same survivor list again; whenever that list is non-empty the
second application changes pending. -/
theorem claim3_absorb_twice (cfg : Config) (visited pending : List String)
    (cur : String) (hrefs : List String) :
    absorb cfg visited (absorb cfg visited pending cur hrefs) cur hrefs =
      pending ++ get_page_links cfg visited cur hrefs ++
        get_page_links cfg visited cur hrefs ∧
    (get_page_links cfg visited cur hrefs ≠ [] →
      absorb cfg visited (absorb cfg visited pending cur hrefs) cur hrefs ≠
        absorb cfg visited pending cur hrefs) := by
  refine ⟨rfl, fun hne hcontra => hne ?_⟩
  have hlen := congrArg List.length hcontra
  simp only [absorb, List.length_append] at hlen
  exact List.length_eq_zero.mp (by omega)

theorem claim3_witness :
    get_page_links cfgX [] ("https://x.com/a") ["https://x.com/c"] ≠ [] ∧
    absorb cfgX []
        (absorb cfgX [] [] ("https://x.com/a") ["https://x.com/c"])
        ("https://x.com/a") ["https://x.com/c"] ≠
      absorb cfgX [] [] ("https://x.com/a") ["https://x.com/c"] :=
  ⟨by decide,
    (claim3_absorb_twice cfgX [] [] ("https://x.com/a") ["https://x.com/c"]).2
      (by decide)⟩

/-- C5 counterexample: with pending empty but visited non-empty, the code
re-seeds pending with the base URL, while the claim says seeding is a
no-op there. -/
theorem claim5_counterexample :
    ¬ seed_claim_at ("https://x.com")
        { visited := ["https://x.com"], pending := [], page_info := [] } := by
  unfold seed_claim_at
  decide

/-- C5 amended: seeding consults only pending — pending becomes [base]
whenever it is empty, and is untouched otherwise, regardless of visited;
a re-seeded already-visited base URL is then popped and skipped by the
loop without rendering. -/
theorem claim5_seeding (base : String) (s : CrawlState) (cfg : Config) (env : Env) :
    (s.pending = [] → crawl_seed base s = { s with pending := [base] }) ∧
    (s.pending ≠ [] → crawl_seed base s = s) ∧
    (s.pending = [] → base ∈ s.visited → s.visited.length < cfg.max_pages →
      crawl_step cfg env (crawl_seed base s) = some ({ s with pending := [] }, none)) := by
  refine ⟨fun hp => ?_, fun hp => ?_, fun hp hv hb => ?_⟩
  · simp [crawl_seed, hp]
  · cases hps : s.pending with
    | nil => exact absurd hps hp
    | cons a l => simp [crawl_seed, hps]
  · have h1 : crawl_seed base s = { s with pending := [base] } := by
      simp [crawl_seed, hp]
    rw [h1]
    exact crawl_step_skip rfl hv hb

theorem claim5_witness :
    ((["https://x.com/a"] : List String) = [] → False) ∧
    (({ visited := ["https://x.com"], pending := [], page_info := [] } :
        CrawlState).pending = [] ∧
      "https://x.com" ∈ (["https://x.com"] : List String) ∧
      (1 : Nat) < cfgX.max_pages) ∧
    crawl_step cfgX envX
        (crawl_seed ("https://x.com")
          { visited := ["https://x.com"], pending := [], page_info := [] }) =
      some ({ visited := ["https://x.com"], pending := [], page_info := [] }, none) :=
  ⟨by decide, ⟨rfl, by decide, by decide⟩,
    (claim5_seeding ("https://x.com")
      { visited := ["https://x.com"], pending := [], page_info := [] } cfgX envX).2.2
      rfl (by decide) (by decide)⟩

/-- C10 counterexample: a per-page PDF that opens and parses successfully
but reports zero pages makes get_pdf_page_count return 0, so a record can
enter pass 1 with a page count below 1, against the claim's consequent. -/
theorem claim10_counterexample :
    ¬ (1 ≤ get_pdf_page_count (fun _ => some 0) ("a.pdf")) := by
  decide

/-- C10 amended: if the per-page PDF cannot be opened or parsed,
get_pdf_page_count returns 1 instead of raising, so every record entering
pass 1 has a defined page count and the offset computation covers all
records; a successfully parsed document contributes its parsed count,
which can be 0. -/
theorem claim10_page_count (pdfRead : String → Option Nat) (p : String) :
    (pdfRead p = none → get_pdf_page_count pdfRead p = 1) ∧
    (∀ counts : List Nat, (temp_start_pages counts).length = counts.length) := by
  refine ⟨fun h => ?_, fun counts => ?_⟩
  · simp [get_pdf_page_count, h]
  · rw [temp_start_pages, tempStartsFrom_eq counts 1]
    simp

theorem claim10_witness :
    (fun _ => none : String → Option Nat) ("a.pdf") = none ∧
    get_pdf_page_count (fun _ => none) ("a.pdf") = 1 :=
  ⟨rfl, (claim10_page_count (fun _ => none) ("a.pdf")).1 rfl⟩

end Pagebinder
